import Mathlib

/-!
Verification of the HabitFlow habit-tracker against its specification.

The development shallowly embeds the parts of the code the claims are
about: `Habit.complete` and the `CompletionLog` bookkeeping of the
`complete_habit` / `undo_completion` routes (src/models.py, src/habits.py),
the badge awarding pass (src/badge_service.py), the payment webhook
endpoints (src/webhooks.py, src/tilopay_handler.py) and the
`User.is_premium_active` query (src/models.py).  Dates are modelled as
integers counting days, so `today - 1 day` is `d - 1`.
-/

namespace HabitFlow

/-- A calendar date, as a day number; `datetime.date` ordering and
`timedelta(days = 1)` arithmetic become integer ordering and `- 1`. -/
abbrev Day := Int

/-- The streak-relevant columns of the `habit` table (src/models.py):
`streak_count`, `longest_streak` (both `Integer`) and the nullable date
column `last_completed`. -/
structure Habit where
  streak_count : Int
  longest_streak : Int
  last_completed : Option Day
deriving Repr, DecidableEq

/-- The local variable `streak` computed inside `Habit.complete`
(src/models.py lines 157-169): continue the streak when yesterday was the
last completion, otherwise restart at 1 (also on the first completion). -/
def newStreak (h : Habit) (today : Day) : Int :=
  match h.last_completed with
  | some lc => if lc = today - 1 then h.streak_count + 1 else 1
  | none => 1

/-- `Habit.complete` (src/models.py lines 147-182).  Returns the boolean
the method returns, paired with the state of the object afterwards (the
Python method mutates `self`; the embedding passes the state explicitly).
-/
def Habit.complete (h : Habit) (today : Day) : Bool × Habit :=
  -- Check if already completed today
  if h.last_completed = some today then
    (false, h)
  else
    let streak : Int := newStreak h today
    -- Update longest streak if current streak is a new record
    let longest : Int :=
      if streak > h.longest_streak then streak else h.longest_streak
    (true, { streak_count := streak, longest_streak := longest,
             last_completed := some today })

theorem complete_of_ne (h : Habit) (d : Day) (hne : h.last_completed ≠ some d) :
    h.complete d =
      (true, { streak_count := newStreak h d,
               longest_streak :=
                 if newStreak h d > h.longest_streak then newStreak h d
                 else h.longest_streak,
               last_completed := some d }) := by
  unfold Habit.complete
  rw [if_neg hne]

theorem complete_of_eq (h : Habit) (d : Day) (heq : h.last_completed = some d) :
    h.complete d = (false, h) := by
  unfold Habit.complete
  rw [if_pos heq]

theorem ite_gt_eq_max (a b : Int) : (if a > b then a else b) = max b a := by
  by_cases hab : a > b
  · rw [if_pos hab, max_eq_right (le_of_lt hab)]
  · rw [if_neg hab, max_eq_left (by omega)]

end HabitFlow

namespace HabitFlow

/-- C1.  For `H.last_completed ≠ D`, `complete(H, D)` succeeds and performs
exactly the spec transition: the streak becomes `old + 1` when
`last_completed = D - 1` and `1` otherwise (also when it was null), the
longest streak becomes the max of its old value and the new streak, and
`last_completed` becomes `D`. -/
theorem complete_success_transition (h : Habit) (d : Day)
    (hne : h.last_completed ≠ some d) :
    (h.complete d).1 = true ∧
    (h.complete d).2.streak_count =
      (if h.last_completed = some (d - 1) then h.streak_count + 1 else 1) ∧
    (h.complete d).2.longest_streak =
      max h.longest_streak (h.complete d).2.streak_count ∧
    (h.complete d).2.last_completed = some d := by
  rw [complete_of_ne h d hne]
  refine ⟨rfl, ?_, ?_, rfl⟩
  · show newStreak h d = _
    unfold newStreak
    cases hlc : h.last_completed with
    | none => simp
    | some lc =>
      by_cases hy : lc = d - 1
      · simp [hy]
      · simp [hy]
  · exact ite_gt_eq_max _ _

/-- Witness for C1, on the spec's Scenario A: habit with
`last_completed = day 1, streak_count = 5, longest_streak = 5`, completed
on day 2, yields streak 6, longest streak 6, `last_completed = day 2`. -/
theorem complete_success_transition_witness :
    ((⟨5, 5, some 1⟩ : Habit).last_completed ≠ some 2) ∧
    ((⟨5, 5, some 1⟩ : Habit).complete 2).1 = true ∧
    ((⟨5, 5, some 1⟩ : Habit).complete 2).2.streak_count =
      (if (⟨5, 5, some 1⟩ : Habit).last_completed = some (2 - 1) then
        (⟨5, 5, some 1⟩ : Habit).streak_count + 1 else 1) ∧
    ((⟨5, 5, some 1⟩ : Habit).complete 2).2.longest_streak =
      max (⟨5, 5, some 1⟩ : Habit).longest_streak
        ((⟨5, 5, some 1⟩ : Habit).complete 2).2.streak_count ∧
    ((⟨5, 5, some 1⟩ : Habit).complete 2).2.last_completed = some 2 :=
  ⟨by decide, complete_success_transition ⟨5, 5, some 1⟩ 2 (by decide)⟩

/-- C2.  `complete(H, D)` fails exactly when `H.last_completed = D`; on
failure the habit is unchanged, and a second call with the same date
(after any first call) fails and leaves the habit unchanged. -/
theorem complete_idempotent_failure (h : Habit) (d : Day) :
    ((h.complete d).1 = false ↔ h.last_completed = some d) ∧
    ((h.complete d).1 = false → (h.complete d).2 = h) ∧
    ((h.complete d).2.complete d).1 = false ∧
    ((h.complete d).2.complete d).2 = (h.complete d).2 := by
  by_cases he : h.last_completed = some d
  · refine ⟨?_, ?_, ?_, ?_⟩ <;> rw [complete_of_eq h d he] <;>
      simp [he, complete_of_eq h d he]
  · have h1 : (h.complete d).2.last_completed = some d := by
      rw [complete_of_ne h d he]
    refine ⟨?_, ?_, ?_, ?_⟩
    · rw [complete_of_ne h d he]
      simp [he]
    · rw [complete_of_ne h d he]
      simp
    · rw [complete_of_eq _ d h1]
    · rw [complete_of_eq _ d h1]

end HabitFlow

namespace HabitFlow

/-- The database state the habit routes touch: one habit row together
with its `completion_log` rows (src/models.py `CompletionLog`: the
`completed_at` dates of the rows whose `habit_id` is this habit). -/
structure HState where
  habit : Habit
  logs : List Day
deriving Repr, DecidableEq

/-- The `complete_habit` route (src/habits.py lines 187-221): call
`habit.complete(today)`; when it returns False nothing is logged, when it
returns True a `CompletionLog(habit_id, today)` row is inserted. -/
def complete_habit (s : HState) (today : Day) : HState :=
  let r := s.habit.complete today
  if r.1 then { habit := r.2, logs := today :: s.logs } else s

/-- The maximum of a list of dates, `none` on the empty list; embeds the
`order_by(CompletionLog.completed_at.desc()).first()` query of
`undo_completion`. -/
def maxLog : List Day → Option Day
  | [] => none
  | d :: ds =>
    match maxLog ds with
    | none => some d
    | some m => some (max d m)

/-- The `undo_completion` route (src/habits.py lines 224-275): when the
habit was completed today, delete today's log row, look up the most
recent remaining log before today, and either decrement the streak (if
that log is exactly yesterday) or reset it to 0; `last_completed` becomes
that log's date, or null when no earlier log remains. -/
def undo_completion (s : HState) (today : Day) : HState :=
  -- Check if completed today
  if s.habit.last_completed ≠ some today then s
  else
    -- Find and delete today's completion log (one row)
    let logs1 := s.logs.erase today
    -- Recalculate streak - find previous completion
    match maxLog (logs1.filter (fun e => e < today)) with
    | some p =>
      let sc := if p = today - 1 then max 0 (s.habit.streak_count - 1) else 0
      { habit := { s.habit with streak_count := sc, last_completed := some p },
        logs := logs1 }
    | none =>
      { habit := { s.habit with streak_count := 0, last_completed := none },
        logs := logs1 }

/-- A route invocation, with the caller-observed `today` date. -/
inductive Op where
  | complete (d : Day)
  | undo (d : Day)
deriving Repr, DecidableEq

/-- The date at which an invocation happens. -/
def Op.date : Op → Day
  | .complete d => d
  | .undo d => d

/-- One route invocation on the database state. -/
def stepOp (s : HState) : Op → HState
  | .complete d => complete_habit s d
  | .undo d => undo_completion s d

/-- A sequence of route invocations. -/
def runOps (s : HState) (ops : List Op) : HState := ops.foldl stepOp s

/-- A freshly created habit row (src/models.py defaults:
`streak_count = 0`, `longest_streak = 0`, `last_completed = NULL`), with
no completion logs. -/
def freshState : HState :=
  { habit := { streak_count := 0, longest_streak := 0, last_completed := none },
    logs := [] }

/-- The habit states traversed while running `ops`, including the start
state. -/
def statesAlong (s : HState) : List Op → List HState
  | [] => [s]
  | op :: ops => s :: statesAlong (stepOp s op) ops

/-- Streak bookkeeping invariant: the streak is nonnegative and never
above the recorded longest streak. -/
def StreakInv (s : HState) : Prop :=
  0 ≤ s.habit.streak_count ∧ s.habit.streak_count ≤ s.habit.longest_streak

theorem undo_longest_eq (s : HState) (d : Day) :
    (undo_completion s d).habit.longest_streak = s.habit.longest_streak := by
  unfold undo_completion
  split
  · rfl
  · dsimp only
    split <;> rfl

theorem undo_streak_le (s : HState) (d : Day) (hinv : StreakInv s) :
    0 ≤ (undo_completion s d).habit.streak_count ∧
    (undo_completion s d).habit.streak_count ≤ s.habit.streak_count ∨
    (undo_completion s d).habit.streak_count = 0 := by
  unfold undo_completion
  split
  · left
    exact ⟨hinv.1, le_refl _⟩
  · dsimp only
    split
    · show 0 ≤ (if _ = d - 1 then max 0 (s.habit.streak_count - 1) else 0) ∧
        (if _ = d - 1 then max 0 (s.habit.streak_count - 1) else 0) ≤
          s.habit.streak_count ∨
        (if _ = d - 1 then max 0 (s.habit.streak_count - 1) else 0) = 0
      split
      · left
        exact ⟨le_max_left 0 _, max_le hinv.1 (by omega)⟩
      · right
        rfl
    · right
      rfl

theorem newStreak_pos (h : Habit) (d : Day) (h0 : 0 ≤ h.streak_count) :
    1 ≤ newStreak h d := by
  obtain ⟨sc, ls, lc⟩ := h
  unfold newStreak
  dsimp only at h0 ⊢
  cases lc with
  | none => exact le_refl 1
  | some lc =>
    dsimp only
    split
    · omega
    · omega

theorem complete_habit_of_eq (s : HState) (d : Day)
    (he : s.habit.last_completed = some d) :
    complete_habit s d = s := by
  unfold complete_habit
  rw [complete_of_eq _ _ he]
  rfl

theorem complete_habit_of_ne (s : HState) (d : Day)
    (he : s.habit.last_completed ≠ some d) :
    complete_habit s d =
      { habit := (s.habit.complete d).2, logs := d :: s.logs } := by
  unfold complete_habit
  rw [complete_of_ne _ _ he]
  rfl

theorem step_longest (s : HState) (op : Op) (hinv : StreakInv s) :
    (stepOp s op).habit.longest_streak =
      max s.habit.longest_streak (stepOp s op).habit.streak_count := by
  cases op with
  | complete d =>
    show (complete_habit s d).habit.longest_streak =
      max s.habit.longest_streak (complete_habit s d).habit.streak_count
    by_cases he : s.habit.last_completed = some d
    · rw [complete_habit_of_eq s d he, max_eq_left hinv.2]
    · rw [complete_habit_of_ne s d he]
      dsimp only
      rw [complete_of_ne _ _ he]
      dsimp only
      rw [ite_gt_eq_max]
  | undo d =>
    show (undo_completion s d).habit.longest_streak =
      max s.habit.longest_streak (undo_completion s d).habit.streak_count
    rw [undo_longest_eq]
    rcases undo_streak_le s d hinv with ⟨_, hle⟩ | h0
    · rw [max_eq_left (le_trans hle hinv.2)]
    · rw [h0, max_eq_left (le_trans hinv.1 hinv.2)]

theorem step_inv (s : HState) (op : Op) (hinv : StreakInv s) :
    StreakInv (stepOp s op) := by
  constructor
  · cases op with
    | complete d =>
      show 0 ≤ (complete_habit s d).habit.streak_count
      by_cases he : s.habit.last_completed = some d
      · rw [complete_habit_of_eq s d he]
        exact hinv.1
      · rw [complete_habit_of_ne s d he]
        dsimp only
        rw [complete_of_ne _ _ he]
        have := newStreak_pos s.habit d hinv.1
        dsimp only
        omega
    | undo d =>
      show 0 ≤ (undo_completion s d).habit.streak_count
      rcases undo_streak_le s d hinv with ⟨h0, _⟩ | h0
      · exact h0
      · omega
  · rw [step_longest s op hinv]
    exact le_max_right _ _

/-- The habit states reached after each invocation of `ops` (the start
state excluded). -/
def statesAfter (s : HState) : List Op → List HState
  | [] => []
  | op :: ops => stepOp s op :: statesAfter (stepOp s op) ops

theorem statesAlong_eq_cons (ops : List Op) : ∀ s : HState,
    statesAlong s ops = s :: statesAfter s ops := by
  induction ops with
  | nil => intro s; rfl
  | cons op ops ih =>
    intro s
    show s :: statesAlong (stepOp s op) ops = _
    rw [ih (stepOp s op)]
    rfl

theorem runOps_longest (ops : List Op) : ∀ s : HState, StreakInv s →
    StreakInv (runOps s ops) ∧
    (runOps s ops).habit.longest_streak =
      ((statesAfter s ops).map (fun t => t.habit.streak_count)).foldl max
        s.habit.longest_streak := by
  induction ops with
  | nil =>
    intro s hinv
    exact ⟨hinv, rfl⟩
  | cons op ops ih =>
    intro s hinv
    have hstep := step_inv s op hinv
    obtain ⟨hinv', heq⟩ := ih (stepOp s op) hstep
    refine ⟨hinv', ?_⟩
    show (runOps (stepOp s op) ops).habit.longest_streak =
      List.foldl max s.habit.longest_streak
        ((stepOp s op).habit.streak_count ::
          (statesAfter (stepOp s op) ops).map (fun t => t.habit.streak_count))
    rw [List.foldl_cons, ← step_longest s op hinv]
    exact heq

end HabitFlow

namespace HabitFlow

/-- C3.  Starting from a fresh habit, over every sequence of
`complete_habit` / `undo_completion` invocations: `longest_streak` equals
the maximum `streak_count` ever observed along the sequence, never
decreases when the sequence is extended, dominates the current
`streak_count`, and is never decremented by an undo. -/
theorem longest_streak_monotone (ops : List Op) :
    (runOps freshState ops).habit.longest_streak =
      ((statesAlong freshState ops).map (fun t => t.habit.streak_count)).foldl
        max 0 ∧
    (∀ op : Op, (runOps freshState ops).habit.longest_streak ≤
      (runOps freshState (ops ++ [op])).habit.longest_streak) ∧
    (runOps freshState ops).habit.streak_count ≤
      (runOps freshState ops).habit.longest_streak ∧
    (∀ d : Day, (undo_completion (runOps freshState ops) d).habit.longest_streak =
      (runOps freshState ops).habit.longest_streak) := by
  have hfresh : StreakInv freshState := ⟨le_refl 0, le_refl 0⟩
  obtain ⟨hinv, heq⟩ := runOps_longest ops freshState hfresh
  refine ⟨?_, ?_, hinv.2, fun d => undo_longest_eq _ d⟩
  · rw [statesAlong_eq_cons]
    show _ = List.foldl max 0
      (freshState.habit.streak_count ::
        (statesAfter freshState ops).map (fun t => t.habit.streak_count))
    rw [List.foldl_cons]
    exact heq
  · intro op
    have hrun : runOps freshState (ops ++ [op]) =
        stepOp (runOps freshState ops) op := by
      unfold runOps
      rw [List.foldl_append]
      rfl
    rw [hrun, step_longest _ op hinv]
    exact le_max_left _ _

end HabitFlow

namespace HabitFlow

theorem maxLog_eq_none_iff (L : List Day) : maxLog L = none ↔ L = [] := by
  cases L with
  | nil => simp [maxLog]
  | cons d ds =>
    unfold maxLog
    cases maxLog ds <;> simp

theorem maxLog_spec (L : List Day) (m : Day) (hm : maxLog L = some m) :
    m ∈ L ∧ ∀ x ∈ L, x ≤ m := by
  induction L generalizing m with
  | nil => simp [maxLog] at hm
  | cons d ds ih =>
    unfold maxLog at hm
    cases hds : maxLog ds with
    | none =>
      rw [hds] at hm
      obtain rfl : d = m := by simpa using hm
      have : ds = [] := (maxLog_eq_none_iff ds).1 hds
      subst this
      simp
    | some m' =>
      rw [hds] at hm
      obtain rfl : max d m' = m := by simpa using hm
      obtain ⟨hmem, hle⟩ := ih m' hds
      constructor
      · rcases max_choice d m' with hc | hc <;> rw [hc]
        · exact List.mem_cons_self d ds
        · exact List.mem_cons_of_mem d hmem
      · intro x hx
        rcases List.mem_cons.1 hx with rfl | hx'
        · exact le_max_left _ _
        · exact le_trans (hle x hx') (le_max_right _ _)

theorem maxLog_eq_of (L : List Day) (p : Day) (hmem : p ∈ L)
    (hle : ∀ x ∈ L, x ≤ p) : maxLog L = some p := by
  cases hm : maxLog L with
  | none =>
    rw [(maxLog_eq_none_iff L).1 hm] at hmem
    simp at hmem
  | some m =>
    obtain ⟨hm', hle'⟩ := maxLog_spec L m hm
    have h1 : m ≤ p := hle m hm'
    have h2 : p ≤ m := hle' p hmem
    rw [le_antisymm h1 h2]

/-- `p` is the most recent of the dates in `L` that lie strictly before
`today`: the value `undo_completion`'s "previous completion" query finds. -/
def IsMostRecentBefore (L : List Day) (today p : Day) : Prop :=
  p ∈ L ∧ p < today ∧ ∀ q ∈ L, q < today → q ≤ p

theorem maxLog_filter_eq (L : List Day) (today p : Day)
    (h : IsMostRecentBefore L today p) :
    maxLog (L.filter (fun e => e < today)) = some p := by
  obtain ⟨hmem, hlt, hle⟩ := h
  apply maxLog_eq_of
  · simp only [List.mem_filter, decide_eq_true_eq]
    exact ⟨hmem, hlt⟩
  · intro x hx
    simp only [List.mem_filter, decide_eq_true_eq] at hx
    exact hle x hx.1 hx.2

end HabitFlow

namespace HabitFlow

/-- C4 counterexample.  Habit completed today (day 10) with an older log
at day 5 remaining: `undo_completion` sets `last_completed` to day 5,
not to null as the claim states for a non-yesterday remaining log. -/
theorem undo_keeps_older_date_counterexample :
    (⟨⟨1, 1, some 10⟩, [10, 5]⟩ : HState).habit.last_completed = some 10 ∧
    ((⟨⟨1, 1, some 10⟩, [10, 5]⟩ : HState).logs.erase 10 = [5]) ∧
    IsMostRecentBefore [5] 10 5 ∧
    ¬ ((5 : Int) = 10 - 1) ∧
    (undo_completion ⟨⟨1, 1, some 10⟩, [10, 5]⟩ 10).habit.streak_count = 0 ∧
    (undo_completion ⟨⟨1, 1, some 10⟩, [10, 5]⟩ 10).habit.last_completed
      = some 5 := by
  refine ⟨rfl, by decide, ⟨by decide, by decide, by decide⟩, by decide,
    by decide, by decide⟩

/-- C4 (amended).  For a habit completed today, `undo_completion` deletes
today's log row; if the most recent remaining log before today exists it
becomes the new `last_completed` (the streak is decremented, floored at
0, exactly when that log is yesterday, and reset to 0 otherwise), and
only when no remaining log precedes today are `streak_count = 0` and
`last_completed = null` set. -/
theorem undo_completion_spec (s : HState) (d : Day)
    (hld : s.habit.last_completed = some d) :
    (undo_completion s d).logs = s.logs.erase d ∧
    (undo_completion s d).habit.longest_streak = s.habit.longest_streak ∧
    (∀ p : Day, IsMostRecentBefore (s.logs.erase d) d p →
      (undo_completion s d).habit.last_completed = some p ∧
      (undo_completion s d).habit.streak_count =
        (if p = d - 1 then max 0 (s.habit.streak_count - 1) else 0)) ∧
    ((∀ q ∈ s.logs.erase d, ¬ q < d) →
      (undo_completion s d).habit.last_completed = none ∧
      (undo_completion s d).habit.streak_count = 0) := by
  have hcond : ¬ (s.habit.last_completed ≠ some d) := not_not_intro hld
  unfold undo_completion
  rw [if_neg hcond]
  dsimp only
  cases hm : maxLog ((s.logs.erase d).filter (fun e => e < d)) with
  | some m =>
    obtain ⟨hmem, hle⟩ := maxLog_spec _ m hm
    simp only [List.mem_filter, decide_eq_true_eq] at hmem
    refine ⟨rfl, rfl, ?_, ?_⟩
    · intro p hp
      have : maxLog ((s.logs.erase d).filter (fun e => e < d)) = some p :=
        maxLog_filter_eq _ d p hp
      rw [hm] at this
      obtain rfl : m = p := by simpa using this
      exact ⟨rfl, rfl⟩
    · intro hq
      exact absurd hmem.2 (hq m hmem.1)
  | none =>
    refine ⟨rfl, rfl, ?_, fun _ => ⟨rfl, rfl⟩⟩
    intro p hp
    have := maxLog_filter_eq (s.logs.erase d) d p hp
    rw [hm] at this
    simp at this

/-- Witness for C4 (amended): habit completed on day 3 with a remaining
log at day 2 (yesterday): undo decrements the streak and restores
`last_completed = day 2`. -/
theorem undo_completion_spec_witness :
    ((⟨⟨2, 2, some 3⟩, [3, 2]⟩ : HState).habit.last_completed = some 3) ∧
    IsMostRecentBefore ((⟨⟨2, 2, some 3⟩, [3, 2]⟩ : HState).logs.erase 3) 3 2 ∧
    ((undo_completion ⟨⟨2, 2, some 3⟩, [3, 2]⟩ 3).habit.last_completed
        = some 2 ∧
      (undo_completion ⟨⟨2, 2, some 3⟩, [3, 2]⟩ 3).habit.streak_count =
        (if (2 : Day) = 3 - 1 then
          max 0 ((⟨⟨2, 2, some 3⟩, [3, 2]⟩ : HState).habit.streak_count - 1)
        else 0)) :=
  ⟨rfl, ⟨by decide, by decide, by decide⟩,
    (undo_completion_spec ⟨⟨2, 2, some 3⟩, [3, 2]⟩ 3 rfl).2.2.1 2
      ⟨by decide, by decide, by decide⟩⟩

end HabitFlow

namespace HabitFlow

/-- The habit's completion history is fully recorded in `completion_log`:
the last completed date (when set) is a logged date and no log is more
recent, and a never-completed habit has no logs. -/
def FullyRecorded (s : HState) : Prop :=
  match s.habit.last_completed with
  | some l => l ∈ s.logs ∧ ∀ e ∈ s.logs, e ≤ l
  | none => s.logs = []

/-- C5 counterexample.  A habit last completed on day 10 (fully logged)
that is completed again on the earlier day 5 (the route's `today` can
move backwards with the user's timezone): the immediate undo leaves
`last_completed = null`, not the prior day 10. -/
theorem complete_undo_counterexample :
    FullyRecorded ⟨⟨1, 1, some 10⟩, [10]⟩ ∧
    ((⟨⟨1, 1, some 10⟩, [10]⟩ : HState).habit.complete 5).1 = true ∧
    (⟨⟨1, 1, some 10⟩, [10]⟩ : HState).habit.last_completed = some 10 ∧
    (undo_completion (complete_habit ⟨⟨1, 1, some 10⟩, [10]⟩ 5)
        5).habit.last_completed = none ∧
    (undo_completion (complete_habit ⟨⟨1, 1, some 10⟩, [10]⟩ 5)
        5).habit.last_completed ≠
      (⟨⟨1, 1, some 10⟩, [10]⟩ : HState).habit.last_completed := by
  refine ⟨⟨?_, ?_⟩, ?_, ?_, ?_, ?_⟩ <;> decide

/-- C5 (amended).  When the habit's history is fully recorded and every
logged date precedes `D` (so the caller's dates have not moved
backwards), `undo(H, D)` right after a successful `complete(H, D)`
restores `last_completed` and the log table, applies the §4.1 streak
rule (decrement, floored at 0, when the restored date is `D - 1`;
otherwise zero), and keeps the longest streak of the undone completion,
so the prior longest streak is not restored when that completion raised
it. -/
theorem complete_undo_inverse (s : HState) (d : Day)
    (hfull : FullyRecorded s) (hlt : ∀ e ∈ s.logs, e < d) :
    (s.habit.complete d).1 = true ∧
    (undo_completion (complete_habit s d) d).logs = s.logs ∧
    (undo_completion (complete_habit s d) d).habit.last_completed =
      s.habit.last_completed ∧
    (s.habit.last_completed = some (d - 1) →
      (undo_completion (complete_habit s d) d).habit.streak_count =
        max 0 ((complete_habit s d).habit.streak_count - 1)) ∧
    (s.habit.last_completed ≠ some (d - 1) →
      (undo_completion (complete_habit s d) d).habit.streak_count = 0) ∧
    (undo_completion (complete_habit s d) d).habit.longest_streak =
      (complete_habit s d).habit.longest_streak ∧
    (s.habit.longest_streak < (complete_habit s d).habit.streak_count →
      (undo_completion (complete_habit s d) d).habit.longest_streak ≠
        s.habit.longest_streak) := by
  have hne : s.habit.last_completed ≠ some d := by
    intro hc
    have hd : d ∈ s.logs ∧ ∀ e ∈ s.logs, e ≤ d := by
      unfold FullyRecorded at hfull
      rw [hc] at hfull
      exact hfull
    exact absurd (hlt d hd.1) (lt_irrefl d)
  have h1 : (s.habit.complete d).1 = true := by
    rw [complete_of_ne _ _ hne]
  have hch := complete_habit_of_ne s d hne
  have hlast1 : (complete_habit s d).habit.last_completed = some d := by
    rw [hch, complete_of_ne _ _ hne]
  have hlogs1 : (complete_habit s d).logs = d :: s.logs := by
    rw [hch]
  have herase : (complete_habit s d).logs.erase d = s.logs := by
    rw [hlogs1]
    exact List.erase_cons_head d s.logs
  obtain ⟨hl2, hlo2, hsome2, hnone2⟩ :=
    undo_completion_spec (complete_habit s d) d hlast1
  have hlongest : (undo_completion (complete_habit s d) d).habit.longest_streak
      = (complete_habit s d).habit.longest_streak := hlo2
  rw [herase] at hl2 hsome2 hnone2
  cases hl : s.habit.last_completed with
  | none =>
    have hempty : s.logs = [] := by
      unfold FullyRecorded at hfull
      rw [hl] at hfull
      exact hfull
    obtain ⟨hlast', hstreak'⟩ := hnone2 (by rw [hempty]; intro q hq; simp at hq)
    refine ⟨h1, hl2, by rw [hlast'], ?_, fun _ => hstreak',
      hlongest, ?_⟩
    · intro hcontra
      simp at hcontra
    · intro hraise
      rw [hlongest, hch]
      rw [hch] at hraise
      dsimp only at hraise ⊢
      rw [complete_of_ne _ _ hne] at hraise ⊢
      dsimp only at hraise ⊢
      rw [ite_gt_eq_max, max_eq_right (le_of_lt hraise)]
      omega
  | some l =>
    have hmem : l ∈ s.logs ∧ ∀ e ∈ s.logs, e ≤ l := by
      unfold FullyRecorded at hfull
      rw [hl] at hfull
      exact hfull
    have hmr : IsMostRecentBefore s.logs d l :=
      ⟨hmem.1, hlt l hmem.1, fun q hq _ => hmem.2 q hq⟩
    obtain ⟨hlast', hstreak'⟩ := hsome2 l hmr
    refine ⟨h1, hl2, by rw [hlast'], ?_, ?_, hlongest, ?_⟩
    · intro hyd
      have : l = d - 1 := by simpa using hyd
      rw [hstreak', if_pos this]
    · intro hyd
      have : ¬ l = d - 1 := fun hc => hyd (by rw [hc])
      rw [hstreak', if_neg this]
    · intro hraise
      rw [hlongest, hch]
      rw [hch] at hraise
      dsimp only at hraise ⊢
      rw [complete_of_ne _ _ hne] at hraise ⊢
      dsimp only at hraise ⊢
      rw [ite_gt_eq_max, max_eq_right (le_of_lt hraise)]
      omega

/-- Witness for C5 (amended): the spec's Scenario A habit
(`streak = 5, longest = 5, last = day 1`, logged on day 1) completed on
day 2 and immediately undone: `last_completed` returns to day 1 and the
streak decrements from 6 back to 5, while `longest_streak` stays 6. -/
theorem complete_undo_inverse_witness :
    FullyRecorded ⟨⟨5, 5, some 1⟩, [1]⟩ ∧
    (∀ e ∈ (⟨⟨5, 5, some 1⟩, [1]⟩ : HState).logs, e < 2) ∧
    (((⟨⟨5, 5, some 1⟩, [1]⟩ : HState).habit.complete 2).1 = true ∧
      (undo_completion (complete_habit ⟨⟨5, 5, some 1⟩, [1]⟩ 2) 2).logs =
        (⟨⟨5, 5, some 1⟩, [1]⟩ : HState).logs ∧
      (undo_completion (complete_habit ⟨⟨5, 5, some 1⟩, [1]⟩ 2)
          2).habit.last_completed =
        (⟨⟨5, 5, some 1⟩, [1]⟩ : HState).habit.last_completed ∧
      ((⟨⟨5, 5, some 1⟩, [1]⟩ : HState).habit.last_completed = some (2 - 1) →
        (undo_completion (complete_habit ⟨⟨5, 5, some 1⟩, [1]⟩ 2)
            2).habit.streak_count =
          max 0 ((complete_habit ⟨⟨5, 5, some 1⟩, [1]⟩ 2).habit.streak_count
            - 1)) ∧
      ((⟨⟨5, 5, some 1⟩, [1]⟩ : HState).habit.last_completed ≠ some (2 - 1) →
        (undo_completion (complete_habit ⟨⟨5, 5, some 1⟩, [1]⟩ 2)
            2).habit.streak_count = 0) ∧
      (undo_completion (complete_habit ⟨⟨5, 5, some 1⟩, [1]⟩ 2)
          2).habit.longest_streak =
        (complete_habit ⟨⟨5, 5, some 1⟩, [1]⟩ 2).habit.longest_streak ∧
      ((⟨⟨5, 5, some 1⟩, [1]⟩ : HState).habit.longest_streak <
          (complete_habit ⟨⟨5, 5, some 1⟩, [1]⟩ 2).habit.streak_count →
        (undo_completion (complete_habit ⟨⟨5, 5, some 1⟩, [1]⟩ 2)
            2).habit.longest_streak ≠
          (⟨⟨5, 5, some 1⟩, [1]⟩ : HState).habit.longest_streak)) :=
  ⟨⟨by decide, by decide⟩, by decide,
    complete_undo_inverse ⟨⟨5, 5, some 1⟩, [1]⟩ 2 ⟨by decide, by decide⟩
      (by decide)⟩

end HabitFlow

namespace HabitFlow

/-- Log-table invariant carried while the route dates stay nondecreasing:
no duplicate `(habit, date)` rows, all rows at or before the latest date
`T`, and a row at `T` itself forces `last_completed = T`. -/
def LogInv (s : HState) (T : Day) : Prop :=
  s.logs.Nodup ∧ (∀ e ∈ s.logs, e ≤ T) ∧
  (∀ e ∈ s.logs, e = T → s.habit.last_completed = some T)

theorem step_logInv (s : HState) (T : Day) (op : Op) (hT : T ≤ op.date)
    (h : LogInv s T) : LogInv (stepOp s op) op.date := by
  obtain ⟨hnd, hbound, hlast⟩ := h
  cases op with
  | complete d =>
    show LogInv (complete_habit s d) d
    by_cases he : s.habit.last_completed = some d
    · rw [complete_habit_of_eq s d he]
      exact ⟨hnd, fun e hee => le_trans (hbound e hee) hT, fun _ _ _ => he⟩
    · have hdnot : d ∉ s.logs := by
        intro hd
        have h1 : d ≤ T := hbound d hd
        have h2 : d = T := le_antisymm h1 hT
        exact he (h2 ▸ hlast d hd h2)
      rw [complete_habit_of_ne s d he]
      refine ⟨?_, ?_, ?_⟩
      · exact List.nodup_cons.2 ⟨hdnot, hnd⟩
      · intro e hee
        rcases List.mem_cons.1 hee with rfl | hee'
        · exact le_refl e
        · exact le_trans (hbound e hee') hT
      · intro e _ _
        show (s.habit.complete d).2.last_completed = some d
        rw [complete_of_ne _ _ he]
  | undo d =>
    show LogInv (undo_completion s d) d
    by_cases he : s.habit.last_completed = some d
    · obtain ⟨hl', _, _, _⟩ := undo_completion_spec s d he
      have hnd' : (s.logs.erase d).Nodup := hnd.erase d
      have hmem' : ∀ e ∈ s.logs.erase d, e ∈ s.logs :=
        fun e hee => List.mem_of_mem_erase hee
      refine ⟨by rw [hl']; exact hnd', ?_, ?_⟩
      · intro e hee
        rw [hl'] at hee
        exact le_trans (hbound e (hmem' e hee)) hT
      · intro e hee heq
        rw [hl'] at hee
        subst heq
        exact (((List.Nodup.mem_erase_iff hnd).mp hee).1 rfl).elim
    · have hstay : undo_completion s d = s := by
        unfold undo_completion
        rw [if_pos he]
      rw [hstay]
      refine ⟨hnd, fun e hee => le_trans (hbound e hee) hT, ?_⟩
      intro e hee heq
      subst heq
      have h1 : e ≤ T := hbound e hee
      have h2 : e = T := le_antisymm h1 hT
      exact absurd (h2 ▸ hlast e hee h2) he

theorem runOps_logInv (ops : List Op) : ∀ (s : HState) (T : Day),
    LogInv s T → List.Chain (· ≤ ·) T (ops.map Op.date) →
    (runOps s ops).logs.Nodup := by
  induction ops with
  | nil =>
    intro s T h _
    exact h.1
  | cons op ops ih =>
    intro s T h hc
    rw [List.map_cons] at hc
    cases hc with
    | cons hTd hc' =>
      exact ih (stepOp s op) op.date (step_logInv s T op hTd h) hc'

end HabitFlow

namespace HabitFlow

/-- C6 counterexample.  With `today` dates that move backwards
(day 1, day 2, then day 1 again, as a westward timezone change allows),
three `complete_habit` invocations insert two `CompletionLog` rows for
the same (habit, date) pair. -/
theorem completion_log_unique_counterexample :
    (runOps freshState [Op.complete 1, Op.complete 2, Op.complete 1]).logs
      = [1, 2, 1] ∧
    ¬ (runOps freshState
        [Op.complete 1, Op.complete 2, Op.complete 1]).logs.Nodup := by
  refine ⟨by decide, by decide⟩

/-- C6 (amended).  Starting from a fresh habit, as long as the `today`
dates of the route invocations are nondecreasing (from some initial date
`T`), the completion-log table holds at most one row per (habit, date)
pair. -/
theorem completion_log_unique (ops : List Op) (T : Day)
    (hchain : List.Chain (· ≤ ·) T (ops.map Op.date)) :
    (runOps freshState ops).logs.Nodup :=
  runOps_logInv ops freshState T
    ⟨List.nodup_nil, fun e hee => absurd hee (List.not_mem_nil e),
      fun e hee => absurd hee (List.not_mem_nil e)⟩ hchain

/-- Witness for C6 (amended): complete on day 1 and day 2, undo on
day 2: the remaining log table `[1]` has no duplicates. -/
theorem completion_log_unique_witness :
    List.Chain (· ≤ ·) 0
      ([Op.complete 1, Op.complete 2, Op.undo 2].map Op.date) ∧
    (runOps freshState
      [Op.complete 1, Op.complete 2, Op.undo 2]).logs.Nodup :=
  ⟨.cons (by decide) (.cons (by decide) (.cons (by decide) .nil)),
    completion_log_unique [Op.complete 1, Op.complete 2, Op.undo 2] 0
      (.cons (by decide) (.cons (by decide) (.cons (by decide) .nil)))⟩

end HabitFlow

namespace HabitFlow

/-- A row of the `badge` table (src/models.py lines 835-870): primary key
`id`, the `is_active` flag and the achievement requirement. -/
structure Badge where
  id : Nat
  is_active : Bool
  requirement_type : String
  requirement_value : Int
deriving Repr, DecidableEq

/-- The results of the database queries that `check_badge_requirement`
(src/badge_service.py lines 376-490) can actually execute for one user.
Each field is the value of one query; none of them reads the
`user_badge` table, so awarding badges leaves all of them unchanged.
The `streak_days` branch and the per-day query of the `perfect_week`
loop never produce a value (they raise, see `check_badge_requirement`),
so no field models them. -/
structure UserStats where
  /-- `CompletionLog` rows joined over the user's habits (used by the
  `any_completion` and `total_completions` branches). -/
  completionCount : Nat
  /-- Number of the user's unarchived habits (queried by the
  `perfect_week` branch before its per-day loop). -/
  activeHabitCount : Nat
  /-- Total habits ever created by the user. -/
  habitsCreated : Nat
  /-- Completions whose extracted hour is before 6. -/
  earlyCompletions : Nat
  /-- Completions whose extracted hour is 22 or later. -/
  lateCompletions : Nat
  /-- Active `ChallengeParticipant` rows of the user. -/
  challengesJoined : Nat
  /-- Undeleted `Challenge` rows created by the user. -/
  challengesCreated : Nat
deriving Repr, DecidableEq

/-- `check_badge_requirement` (src/badge_service.py lines 376-490): one
branch per `requirement_type`; unknown types evaluate to False.  Two
branches raise instead of returning, modelled as `Except.error`:

* `streak_days` builds a query on `Habit.current_streak`
  (src/badge_service.py line 400), but the `Habit` model has no such
  attribute (its column is `streak_count`; `current_streak` belongs to
  `ChallengeParticipant`), so the attribute access raises
  `AttributeError` before anything runs;

* `perfect_week` first runs the active-habit query (returning False on
  an empty result, and True when `range(requirement_value)` is empty),
  but the first loop iteration filters on `CompletionLog.completed_date`
  (src/badge_service.py line 440), an attribute the model does not have
  (its column is `completed_at`), raising `AttributeError`. -/
def check_badge_requirement (stats : UserStats) (badge : Badge) :
    Except String Bool :=
  if badge.requirement_type = "any_completion" then
    Except.ok (decide (badge.requirement_value ≤ (stats.completionCount : Int)))
  else if badge.requirement_type = "streak_days" then
    Except.error "AttributeError: Habit has no attribute current_streak"
  else if badge.requirement_type = "total_completions" then
    Except.ok (decide (badge.requirement_value ≤ (stats.completionCount : Int)))
  else if badge.requirement_type = "perfect_week" then
    if stats.activeHabitCount = 0 then Except.ok false
    else if badge.requirement_value.toNat = 0 then Except.ok true
    else
      Except.error
        "AttributeError: CompletionLog has no attribute completed_date"
  else if badge.requirement_type = "habits_created" then
    Except.ok (decide (badge.requirement_value ≤ (stats.habitsCreated : Int)))
  else if badge.requirement_type = "early_completions" then
    Except.ok (decide (badge.requirement_value ≤ (stats.earlyCompletions : Int)))
  else if badge.requirement_type = "late_completions" then
    Except.ok (decide (badge.requirement_value ≤ (stats.lateCompletions : Int)))
  else if badge.requirement_type = "challenges_joined" then
    Except.ok (decide (badge.requirement_value ≤ (stats.challengesJoined : Int)))
  else if badge.requirement_type = "challenges_created" then
    Except.ok (decide (badge.requirement_value ≤ (stats.challengesCreated : Int)))
  else
    Except.ok false

/-- The `available_badges` query of `check_and_award_badges`
(src/badge_service.py lines 351-355): active badges whose id the user has
not earned yet. -/
def availableBadges (badges : List Badge) (earned : List Nat) : List Badge :=
  badges.filter (fun b => b.is_active && !(decide (b.id ∈ earned)))

/-- The awarding loop of `check_and_award_badges` (src/badge_service.py
lines 357-371): iterate over the available badges in order, collecting
the ids whose requirement check returns True.  An `AttributeError` from
`check_badge_requirement` propagates out of the loop. -/
def awardLoop (stats : UserStats) : List Badge → Except String (List Nat)
  | [] => Except.ok []
  | b :: bs =>
    match check_badge_requirement stats b with
    | Except.error e => Except.error e
    | Except.ok true =>
      match awardLoop stats bs with
      | Except.error e => Except.error e
      | Except.ok rest => Except.ok (b.id :: rest)
    | Except.ok false => awardLoop stats bs

/-- `check_and_award_badges` (src/badge_service.py lines 337-373) for one
user: `badges` is the badge table, `earned` the user's `user_badge` rows
(badge ids).  On success it returns the ids of the newly inserted rows;
on an `AttributeError` the exception propagates to the caller (the
`/badges/check` route, src/gamification.py line 84, which does not catch
it), so the `db.session.commit()` guarded at line 370 never runs and no
row is persisted. -/
def check_and_award_badges (badges : List Badge) (earned : List Nat)
    (stats : UserStats) : Except String (List Nat) :=
  awardLoop stats (availableBadges badges earned)

/-- The `user_badge` rows for the user after a run: extended by the new
ids on success, unchanged when the run raised (nothing was committed). -/
def earnedAfter (earned : List Nat) (r : Except String (List Nat)) :
    List Nat :=
  match r with
  | Except.ok awarded => earned ++ awarded
  | Except.error _ => earned

theorem awardLoop_mem (stats : UserStats) (l : List Badge) (a : List Nat)
    (h : awardLoop stats l = Except.ok a) (x : Nat) :
    x ∈ a ↔ ∃ b : Badge, b ∈ l ∧
      check_badge_requirement stats b = Except.ok true ∧ b.id = x := by
  induction l generalizing a with
  | nil =>
    unfold awardLoop at h
    obtain rfl : ([] : List Nat) = a := by simpa using h
    simp
  | cons b bs ih =>
    unfold awardLoop at h
    cases hc : check_badge_requirement stats b with
    | error e =>
      rw [hc] at h
      simp at h
    | ok r =>
      rw [hc] at h
      cases r with
      | true =>
        cases hrest : awardLoop stats bs with
        | error e =>
          rw [hrest] at h
          simp at h
        | ok rest =>
          rw [hrest] at h
          obtain rfl : b.id :: rest = a := by simpa using h
          constructor
          · intro hx
            rcases List.mem_cons.1 hx with rfl | hx'
            · exact ⟨b, List.mem_cons_self b bs, hc, rfl⟩
            · obtain ⟨b', hb', hc', rfl⟩ := (ih rest hrest).1 hx'
              exact ⟨b', List.mem_cons_of_mem b hb', hc', rfl⟩
          · intro hx
            obtain ⟨b', hb', hc', rfl⟩ := hx
            rcases List.mem_cons.1 hb' with rfl | hb''
            · exact List.mem_cons_self _ rest
            · exact List.mem_cons_of_mem _
                ((ih rest hrest).2 ⟨b', hb'', hc', rfl⟩)
      | false =>
        rw [ih a h]
        constructor
        · rintro ⟨b', hb', hc', rfl⟩
          exact ⟨b', List.mem_cons_of_mem b hb', hc', rfl⟩
        · rintro ⟨b', hb', hc', rfl⟩
          rcases List.mem_cons.1 hb' with rfl | hb''
          · rw [hc] at hc'
            simp at hc'
          · exact ⟨b', hb'', hc', rfl⟩

theorem awardLoop_checks (stats : UserStats) (l : List Badge) (a : List Nat)
    (h : awardLoop stats l = Except.ok a) :
    ∀ b ∈ l, ∃ r : Bool, check_badge_requirement stats b = Except.ok r := by
  induction l generalizing a with
  | nil => simp
  | cons b bs ih =>
    unfold awardLoop at h
    cases hc : check_badge_requirement stats b with
    | error e =>
      rw [hc] at h
      simp at h
    | ok r =>
      rw [hc] at h
      intro b' hb'
      rcases List.mem_cons.1 hb' with rfl | hb''
      · exact ⟨r, hc⟩
      · cases r with
        | true =>
          cases hrest : awardLoop stats bs with
          | error e =>
            rw [hrest] at h
            simp at h
          | ok rest => exact ih rest hrest b' hb''
        | false => exact ih a h b' hb''

theorem awardLoop_of_false (stats : UserStats) (l : List Badge)
    (hall : ∀ b ∈ l, check_badge_requirement stats b = Except.ok false) :
    awardLoop stats l = Except.ok [] := by
  induction l with
  | nil => rfl
  | cons b bs ih =>
    unfold awardLoop
    rw [hall b (List.mem_cons_self b bs)]
    exact ih (fun b' hb' => hall b' (List.mem_cons_of_mem b hb'))

theorem awardLoop_sublist (stats : UserStats) (l : List Badge) (a : List Nat)
    (h : awardLoop stats l = Except.ok a) :
    a.Sublist (l.map (fun b => b.id)) := by
  induction l generalizing a with
  | nil =>
    obtain rfl : ([] : List Nat) = a := by simpa [awardLoop] using h
    exact List.Sublist.refl _
  | cons b bs ih =>
    unfold awardLoop at h
    cases hc : check_badge_requirement stats b with
    | error e =>
      rw [hc] at h
      simp at h
    | ok r =>
      rw [hc] at h
      cases r with
      | true =>
        cases hrest : awardLoop stats bs with
        | error e =>
          rw [hrest] at h
          simp at h
        | ok rest =>
          rw [hrest] at h
          obtain rfl : b.id :: rest = a := by simpa using h
          exact List.Sublist.cons₂ _ (ih rest hrest)
      | false => exact List.Sublist.cons _ (ih a h)

theorem mem_available_iff (badges : List Badge) (earned : List Nat)
    (b : Badge) :
    b ∈ availableBadges badges earned ↔
      b ∈ badges ∧ b.is_active = true ∧ b.id ∉ earned := by
  unfold availableBadges
  simp [List.mem_filter, Bool.and_eq_true, Bool.not_eq_true',
    decide_eq_false_iff_not, and_assoc]

theorem award_ok_mem_iff (badges : List Badge) (earned : List Nat)
    (stats : UserStats) (a : List Nat)
    (h : check_and_award_badges badges earned stats = Except.ok a) (x : Nat) :
    x ∈ a ↔ ∃ b : Badge, b ∈ badges ∧ b.is_active = true ∧ b.id ∉ earned ∧
      check_badge_requirement stats b = Except.ok true ∧ b.id = x := by
  rw [awardLoop_mem stats _ a h x]
  constructor
  · rintro ⟨b, hb, hc, rfl⟩
    obtain ⟨hb', hact, hnotin⟩ := (mem_available_iff badges earned b).1 hb
    exact ⟨b, hb', hact, hnotin, hc, rfl⟩
  · rintro ⟨b, hb', hact, hnotin, hc, rfl⟩
    exact ⟨b, (mem_available_iff badges earned b).2 ⟨hb', hact, hnotin⟩,
      hc, rfl⟩

end HabitFlow

namespace HabitFlow

/-- C7.  Badge evaluation never double-awards, for every
`requirement_type` in the catalog: with distinct badge ids (the primary
key) and a duplicate-free `user_badge` table (its unique constraint),
a successful run followed immediately by a second run awards nothing
further; the `user_badge` table after the first run — which is unchanged
when the run raised, as the `streak_days` and `perfect_week` branches do
— is a fixed point of re-running and never holds a duplicate
(user, badge) pair. -/
theorem badge_award_idempotent (badges : List Badge) (earned : List Nat)
    (stats : UserStats) (hids : (badges.map (fun b => b.id)).Nodup)
    (he : earned.Nodup) :
    (∀ a1 : List Nat, check_and_award_badges badges earned stats =
        Except.ok a1 →
      check_and_award_badges badges (earned ++ a1) stats = Except.ok []) ∧
    earnedAfter
        (earnedAfter earned (check_and_award_badges badges earned stats))
        (check_and_award_badges badges
          (earnedAfter earned (check_and_award_badges badges earned stats))
          stats) =
      earnedAfter earned (check_and_award_badges badges earned stats) ∧
    (earnedAfter earned (check_and_award_badges badges earned stats)).Nodup
    := by
  have hsecond : ∀ a1 : List Nat,
      check_and_award_badges badges earned stats = Except.ok a1 →
      check_and_award_badges badges (earned ++ a1) stats = Except.ok [] := by
    intro a1 h1
    apply awardLoop_of_false
    intro b hb
    obtain ⟨hb', hact, hnotin⟩ := (mem_available_iff badges (earned ++ a1) b).1 hb
    have hnotin1 : b.id ∉ earned := fun hc =>
      hnotin (List.mem_append.2 (Or.inl hc))
    have hb1 : b ∈ availableBadges badges earned :=
      (mem_available_iff badges earned b).2 ⟨hb', hact, hnotin1⟩
    obtain ⟨r, hr⟩ := awardLoop_checks stats _ a1 h1 b hb1
    cases r with
    | false => exact hr
    | true =>
      exact absurd
        ((award_ok_mem_iff badges earned stats a1 h1 b.id).2
          ⟨b, hb', hact, hnotin1, hr, rfl⟩)
        (fun hc => hnotin (List.mem_append.2 (Or.inr hc)))
  refine ⟨hsecond, ?_, ?_⟩
  · cases h1 : check_and_award_badges badges earned stats with
    | error e =>
      show earnedAfter earned
        (check_and_award_badges badges earned stats) = earned
      rw [h1]
      rfl
    | ok a1 =>
      show earnedAfter (earned ++ a1)
        (check_and_award_badges badges (earned ++ a1) stats) = earned ++ a1
      rw [hsecond a1 h1]
      show earned ++ a1 ++ [] = earned ++ a1
      rw [List.append_nil]
  · cases h1 : check_and_award_badges badges earned stats with
    | error e => exact he
    | ok a1 =>
      show (earned ++ a1).Nodup
      have ha1 : a1.Nodup := by
        have hsub : a1.Sublist
            ((availableBadges badges earned).map (fun b => b.id)) :=
          awardLoop_sublist stats _ a1 h1
        have hsub2 : ((availableBadges badges earned).map
            (fun b => b.id)).Sublist (badges.map (fun b => b.id)) :=
          List.Sublist.map _ (List.filter_sublist badges)
        exact (hsub.trans hsub2).nodup hids
      apply List.Nodup.append he ha1
      intro x hx hx'
      obtain ⟨b, _, _, hnotin, _, rfl⟩ :=
        (award_ok_mem_iff badges earned stats a1 h1 x).1 hx'
      exact hnotin hx

/-- Witness for C7: a catalog with an unearned `any_completion` badge,
an already-earned `streak_days` badge (so its crashing branch is never
reached) and an inactive badge, on a user with one completion: the first
run awards badge 1, the second run awards nothing, and the table
`[2, 1]` has no duplicate. -/
theorem badge_award_idempotent_witness :
    (([⟨1, true, "any_completion", 1⟩, ⟨2, true, "streak_days", 7⟩,
        ⟨3, false, "total_completions", 1⟩] : List Badge).map
      (fun b => b.id)).Nodup ∧
    ([2] : List Nat).Nodup ∧
    ((∀ a1 : List Nat, check_and_award_badges
          [⟨1, true, "any_completion", 1⟩, ⟨2, true, "streak_days", 7⟩,
            ⟨3, false, "total_completions", 1⟩]
          [2] ⟨1, 1, 1, 0, 0, 0, 0⟩ = Except.ok a1 →
        check_and_award_badges
          [⟨1, true, "any_completion", 1⟩, ⟨2, true, "streak_days", 7⟩,
            ⟨3, false, "total_completions", 1⟩]
          ([2] ++ a1) ⟨1, 1, 1, 0, 0, 0, 0⟩ = Except.ok []) ∧
      earnedAfter
          (earnedAfter [2] (check_and_award_badges
            [⟨1, true, "any_completion", 1⟩, ⟨2, true, "streak_days", 7⟩,
              ⟨3, false, "total_completions", 1⟩]
            [2] ⟨1, 1, 1, 0, 0, 0, 0⟩))
          (check_and_award_badges
            [⟨1, true, "any_completion", 1⟩, ⟨2, true, "streak_days", 7⟩,
              ⟨3, false, "total_completions", 1⟩]
            (earnedAfter [2] (check_and_award_badges
              [⟨1, true, "any_completion", 1⟩, ⟨2, true, "streak_days", 7⟩,
                ⟨3, false, "total_completions", 1⟩]
              [2] ⟨1, 1, 1, 0, 0, 0, 0⟩))
            ⟨1, 1, 1, 0, 0, 0, 0⟩) =
        earnedAfter [2] (check_and_award_badges
          [⟨1, true, "any_completion", 1⟩, ⟨2, true, "streak_days", 7⟩,
            ⟨3, false, "total_completions", 1⟩]
          [2] ⟨1, 1, 1, 0, 0, 0, 0⟩) ∧
      (earnedAfter [2] (check_and_award_badges
        [⟨1, true, "any_completion", 1⟩, ⟨2, true, "streak_days", 7⟩,
          ⟨3, false, "total_completions", 1⟩]
        [2] ⟨1, 1, 1, 0, 0, 0, 0⟩)).Nodup) :=
  ⟨by decide, by decide,
    badge_award_idempotent
      [⟨1, true, "any_completion", 1⟩, ⟨2, true, "streak_days", 7⟩,
        ⟨3, false, "total_completions", 1⟩]
      [2] ⟨1, 1, 1, 0, 0, 0, 0⟩ (by decide) (by decide)⟩

end HabitFlow

namespace HabitFlow

/-- Outcome of `stripe.Webhook.construct_event` in `stripe_webhook`
(src/webhooks.py lines 52-65): a verified event, a `ValueError` for a bad
payload, or a `SignatureVerificationError`. -/
inductive StripeVerify where
  | valid (eventType : String)
  | invalidPayload
  | invalidSignature
deriving Repr, DecidableEq

/-- The `/webhooks/stripe` endpoint (src/webhooks.py lines 22-97),
abstracted over the configured secret and the verification outcome.
Returns the HTTP status and whether the event handlers were dispatched. -/
def stripe_webhook (secret : Option String) (v : StripeVerify) : Nat × Bool :=
  match secret with
  | none => (500, false)
  | some _ =>
    match v with
    | .invalidPayload => (400, false)
    | .invalidSignature => (400, false)
    | .valid _ => (200, true)

/-- Outcome of `paypalrestsdk.WebhookEvent.verify` in `paypal_webhook`
(src/webhooks.py lines 362-401): verified, a falsy response, or an
exception raised during verification. -/
inductive PaypalVerify where
  | valid
  | invalid
  | exception
deriving Repr, DecidableEq

/-- The `/webhooks/paypal` endpoint (src/webhooks.py lines 328-430):
signature verification runs only when `PAYPAL_WEBHOOK_ID` is configured,
a failed verification is rejected with HTTP 401, and a verification
exception is rejected (401) only in live mode. -/
def paypal_webhook (webhook_id : Option String) (mode : String)
    (v : PaypalVerify) : Nat × Bool :=
  match webhook_id with
  | none => (200, true)
  | some _ =>
    match v with
    | .valid => (200, true)
    | .invalid => (401, false)
    | .exception => if mode = "live" then (401, false) else (200, true)

/-- The `/webhooks/coinbase` endpoint (src/webhooks.py lines 652-717):
`Webhook.construct_event` either verifies the `X-CC-Webhook-Signature`
header (input `true`) or raises (input `false`, rejected with 400). -/
def coinbase_webhook (secret : Option String) (sigValid : Bool) :
    Nat × Bool :=
  match secret with
  | none => (500, false)
  | some _ => if sigValid then (200, true) else (400, false)

/-- The `/webhooks/tilopay` endpoint (src/webhooks.py lines 867-903 with
`handle_tilopay_webhook`, src/tilopay_handler.py lines 361-380): the
HMAC signature is checked only when a webhook secret is configured; an
invalid signature yields `(False, 'Invalid signature')` and HTTP 400. -/
def tilopay_webhook (secret : Option String) (sigValid : Bool) :
    Nat × Bool :=
  match secret with
  | none => (200, true)
  | some _ => if sigValid then (200, true) else (400, false)

end HabitFlow

namespace HabitFlow

/-- C8 counterexample.  The PayPal endpoint with a configured webhook id
rejects a failed signature verification with HTTP 401, not 400, and with
no webhook id configured it processes the event without any
verification. -/
theorem webhook_status_counterexample :
    paypal_webhook (some "whid") "live" PaypalVerify.invalid = (401, false) ∧
    (401 : Nat) ≠ 400 ∧
    paypal_webhook none "live" PaypalVerify.invalid = (200, true) := by
  refine ⟨rfl, by decide, rfl⟩

/-- C8 (amended).  Stripe and Coinbase always verify the signature before
processing and reject failures with HTTP 400 and no state change; PayPal
verifies only when `PAYPAL_WEBHOOK_ID` is configured, rejects failures
with HTTP 401, treats verification exceptions as rejections only in live
mode, and processes unverified events otherwise; TiloPay rejects invalid
signatures with HTTP 400 but skips verification when no webhook secret is
configured. -/
theorem webhook_signature_gating :
    (∀ s : String, stripe_webhook (some s) StripeVerify.invalidSignature =
      (400, false)) ∧
    (∀ (s : String) (v : StripeVerify), (stripe_webhook (some s) v).2 = true →
      ∃ t : String, v = StripeVerify.valid t) ∧
    (∀ s : String, coinbase_webhook (some s) false = (400, false)) ∧
    (∀ (s : String) (b : Bool), (coinbase_webhook (some s) b).2 = true →
      b = true) ∧
    (∀ (w m : String), paypal_webhook (some w) m PaypalVerify.invalid =
      (401, false)) ∧
    (∀ (m : String) (v : PaypalVerify), paypal_webhook none m v =
      (200, true)) ∧
    (∀ w : String, paypal_webhook (some w) "live" PaypalVerify.exception =
      (401, false)) ∧
    (∀ (w m : String), m ≠ "live" →
      paypal_webhook (some w) m PaypalVerify.exception = (200, true)) ∧
    (∀ s : String, tilopay_webhook (some s) false = (400, false)) ∧
    (∀ b : Bool, tilopay_webhook none b = (200, true)) := by
  refine ⟨fun _ => rfl, ?_, fun _ => rfl, ?_, fun _ _ => rfl, fun _ _ => rfl,
    fun _ => rfl, ?_, fun _ => rfl, fun _ => rfl⟩
  · intro s v hv
    cases v with
    | valid t => exact ⟨t, rfl⟩
    | invalidPayload => simp [stripe_webhook] at hv
    | invalidSignature => simp [stripe_webhook] at hv
  · intro s b hb
    cases b with
    | true => rfl
    | false => simp [coinbase_webhook] at hb
  · intro w m hm
    unfold paypal_webhook
    rw [if_neg hm]

end HabitFlow

namespace HabitFlow

/-- The subscription-relevant columns of the `user` table
(src/models.py): the payment-failure counter, tier, status, habit limit
and the nullable timestamps the handlers touch (timestamps as day
numbers). -/
structure User where
  payment_failures : Int
  subscription_tier : String
  subscription_status : String
  habit_limit : Int
  subscription_end_date : Option Int
  last_payment_date : Option Int
deriving Repr, DecidableEq

/-- `handle_payment_failed` (src/webhooks.py lines 270-321) on a found
user at time `now`: increment the failure counter; at 3 or more
consecutive failures, force-downgrade to the free tier. -/
def handle_payment_failed (u : User) (now : Int) : User :=
  let u1 := { u with payment_failures := u.payment_failures + 1 }
  if 3 ≤ u1.payment_failures then
    { u1 with subscription_status := "expired", subscription_tier := "free",
              subscription_end_date := some now, habit_limit := 3 }
  else u1

/-- `handle_invoice_payment_succeeded` (src/webhooks.py lines 219-267) on
a found user at time `now`: record the payment, reset the failure
counter, and extend the subscription end date by the tier's period. -/
def handle_invoice_payment_succeeded (u : User) (now : Int) : User :=
  let u1 := { u with last_payment_date := some now, payment_failures := 0 }
  if u1.subscription_tier = "monthly" then
    { u1 with subscription_end_date := some (now + 30) }
  else if u1.subscription_tier = "annual" then
    { u1 with subscription_end_date := some (now + 365) }
  else u1

/-- `User.is_premium_active` (src/models.py lines 83-97) at time `now`:
returns the boolean result paired with the state of the user object
afterwards (the Python method mutates `self` on the expiry path). -/
def is_premium_active (u : User) (now : Int) : Bool × User :=
  if u.subscription_tier = "lifetime" then
    (true, u)
  else if u.subscription_tier = "monthly" ∨ u.subscription_tier = "annual" then
    match u.subscription_end_date with
    | some e =>
      if now < e then (true, u)
      else
        (false, { u with subscription_tier := "free",
                         subscription_status := "expired", habit_limit := 3 })
    | none =>
      (false, { u with subscription_tier := "free",
                       subscription_status := "expired", habit_limit := 3 })
  else
    (false, u)

end HabitFlow

namespace HabitFlow

/-- C9.  A payment-failed event increments the failure counter; when the
counter reaches 3 the user is force-downgraded (`free` / `expired` /
habit limit 3); a subsequent successful payment resets the counter to
0. -/
theorem payment_failure_threshold :
    (∀ (u : User) (now : Int),
      (handle_payment_failed u now).payment_failures =
        u.payment_failures + 1) ∧
    (∀ (u : User) (now : Int), 3 ≤ u.payment_failures + 1 →
      (handle_payment_failed u now).subscription_tier = "free" ∧
      (handle_payment_failed u now).subscription_status = "expired" ∧
      (handle_payment_failed u now).habit_limit = 3) ∧
    (∀ (u : User) (now : Int), u.payment_failures + 1 < 3 →
      (handle_payment_failed u now).subscription_tier =
        u.subscription_tier ∧
      (handle_payment_failed u now).subscription_status =
        u.subscription_status ∧
      (handle_payment_failed u now).habit_limit = u.habit_limit) ∧
    (∀ (u : User) (now now2 : Int),
      (handle_invoice_payment_succeeded (handle_payment_failed u now)
        now2).payment_failures = 0) := by
  refine ⟨?_, ?_, ?_, ?_⟩
  · intro u now
    unfold handle_payment_failed
    dsimp only
    split <;> rfl
  · intro u now h3
    unfold handle_payment_failed
    dsimp only
    rw [if_pos h3]
    exact ⟨rfl, rfl, rfl⟩
  · intro u now h3
    unfold handle_payment_failed
    dsimp only
    rw [if_neg (by omega)]
    exact ⟨rfl, rfl, rfl⟩
  · intro u now now2
    unfold handle_invoice_payment_succeeded
    dsimp only
    split
    · rfl
    · split <;> rfl

/-- C10.  On a `monthly` or `annual` user whose end date is null or not
strictly in the future, the read-style `is_premium_active` returns False
and mutates the user in place to `free` / `expired` / habit limit 3; on a
`lifetime` user it returns True and changes nothing. -/
theorem is_premium_active_mutates :
    (∀ (u : User) (now : Int),
      (u.subscription_tier = "monthly" ∨ u.subscription_tier = "annual") →
      (u.subscription_end_date = none ∨
        ∃ e : Int, u.subscription_end_date = some e ∧ ¬ now < e) →
      (is_premium_active u now).1 = false ∧
      (is_premium_active u now).2.subscription_tier = "free" ∧
      (is_premium_active u now).2.subscription_status = "expired" ∧
      (is_premium_active u now).2.habit_limit = 3) ∧
    (∀ (u : User) (now : Int), u.subscription_tier = "lifetime" →
      is_premium_active u now = (true, u)) := by
  constructor
  · intro u now htier hend
    have hnl : ¬ u.subscription_tier = "lifetime" := by
      rcases htier with h | h <;> rw [h] <;> decide
    unfold is_premium_active
    rw [if_neg hnl, if_pos htier]
    rcases hend with he | ⟨e, he, helt⟩
    · rw [he]
      exact ⟨rfl, rfl, rfl, rfl⟩
    · rw [he]
      dsimp only
      rw [if_neg helt]
      exact ⟨rfl, rfl, rfl, rfl⟩
  · intro u now htier
    unfold is_premium_active
    rw [if_pos htier]

end HabitFlow
